import Mathlib

/-!
Verification of the SMA-crossover backtesting core: a shallow embedding of
`strategies/sma_cross_strategy.py` (readiness gating, capital-allocation
cache, position state machine, order sizing) and of
`utils/sortino_analyzer.py` (downside-risk-adjusted performance analyzer),
with theorems settling the specification's claims about them.

Python floats are modelled by `ℚ` where the code only performs field
operations and comparisons, and by `ℝ` in the analyzer, whose formulas use
real powers and square roots.  A Python value that may be `None`, `nan`
or a number is modelled by the inductive `PyVal`.
-/

namespace BQT

/-! ### Python scalar values (None / nan / number) -/

/-- A Python scalar as seen by the strategy: `None`, a float `nan`, or an
ordinary number (modelled as a rational). -/
inductive PyVal where
  | none
  | nan
  | num (q : ℚ)
deriving DecidableEq

/-- `true` exactly when the value is an ordinary number (not `None`, not `nan`).
Mirrors the checks `v is None` / `math.isnan(v)` in `_data_ready`. -/
def PyVal.isNum : PyVal → Bool
  | .num _ => true
  | _ => false

/-- Extract the numeric payload, defaulting to `0`.  Used only where the code
has already established `isNum` via `_data_ready`. -/
def PyVal.toRat : PyVal → ℚ
  | .num q => q
  | _ => 0

/-! ### Per-instrument step context and the readiness check -/

/-- The per-instrument data visible to one strategy step for one feed `d`:
`len(d)`, `d.close[0]`, and the three indicator heads
`fast_sma[0]`, `slow_sma[0]`, `crossover[0]`. -/
structure DataCtx where
  histLen : ℕ
  close : PyVal
  fast : PyVal
  slow : PyVal
  xo : PyVal
deriving DecidableEq

/-- `self.min_periods[d] = max(int(fast_ma), int(slow_ma))` from `__init__`. -/
def min_period (fast_ma slow_ma : ℕ) : ℕ := max fast_ma slow_ma

/-- Embedding of `SmaCrossStrategy._data_ready`: the readiness gate for one
instrument on one step. -/
def data_ready (fast_ma slow_ma : ℕ) (c : DataCtx) : Bool :=
  if c.histLen < 1 then false
  else if c.histLen < min_period fast_ma slow_ma then false
  else
    match c.close with
    | .none => false
    | .nan => false
    | .num p =>
      if p ≤ 0 then false
      else c.fast.isNum && c.slow.isNum && c.xo.isNum

/-! ### Capital allocation cache -/

/-- `active_n = max(1, len(self.d_with_len) if len(self.d_with_len) else len(self.datas))`
from `_ensure_capital_per_ticker`. -/
def active_n (numWithLen totalDatas : ℕ) : ℕ :=
  max 1 (if numWithLen ≠ 0 then numWithLen else totalDatas)

/-- `capital_per = cash / float(active_n)` from `_ensure_capital_per_ticker`. -/
def capital_per_calc (cash : ℚ) (numWithLen totalDatas : ℕ) : ℚ :=
  cash / ((active_n numWithLen totalDatas : ℕ) : ℚ)

/-- Position state of one instrument: `pos.size == 0` (flat) or a long
position, tracked optimistically at intent time. -/
inductive PosState where
  | flat
  | long
deriving DecidableEq

/-- The strategy's mutable state relevant to allocation and positions:
`self.d_with_len` (as a set of feed indices), the capital cache
`self._capital_per_active_ticker`, `self._capital_calc_for_len`, and the
per-instrument position. -/
structure StratState where
  d_with_len : Finset ℕ
  capital_per_ticker : Option ℚ
  capital_calc_for_len : Option ℕ
  positions : ℕ → PosState

/-- State after `__init__`: empty `d_with_len`, empty caches, all flat. -/
def StratState.init : StratState :=
  ⟨∅, none, none, fun _ => PosState.flat⟩

/-- The early-return condition of `_ensure_capital_per_ticker`:
`self._capital_per_active_ticker is not None and self._capital_calc_for_len == active_n`. -/
def cache_valid (totalDatas : ℕ) (s : StratState) : Bool :=
  s.capital_per_ticker.isSome &&
    s.capital_calc_for_len == some (active_n s.d_with_len.card totalDatas)

/-- Embedding of `_ensure_capital_per_ticker`. -/
def ensure_capital_per_ticker (totalDatas : ℕ) (cash : ℚ) (s : StratState) : StratState :=
  if cache_valid totalDatas s then s
  else
    { s with
      capital_per_ticker := some (capital_per_calc cash s.d_with_len.card totalDatas)
      capital_calc_for_len := some (active_n s.d_with_len.card totalDatas) }

/-- The head of `next`: recompute `current_available`; when the set differs
from `self.d_with_len`, store it and drop the capital cache. -/
def update_available (s : StratState) (avail : Finset ℕ) : StratState :=
  if avail ≠ s.d_with_len then
    { s with d_with_len := avail, capital_per_ticker := none }
  else s

/-- The capital-handling prefix of one `next` call: `update_available`
followed by `_ensure_capital_per_ticker`. -/
def capital_step (totalDatas : ℕ) (s : StratState) (avail : Finset ℕ) (cash : ℚ) : StratState :=
  ensure_capital_per_ticker totalDatas cash (update_available s avail)

/-- Whether one `next` call recomputes the cached allocation, i.e. whether
`_ensure_capital_per_ticker` takes its else-branch on this step. -/
def step_recomputes (totalDatas : ℕ) (s : StratState) (avail : Finset ℕ) : Bool :=
  !(cache_valid totalDatas (update_available s avail))

/-! ### Order sizing and the position state machine -/

/-- Python's `int()` applied to a rational: truncation toward zero. -/
def pyInt (q : ℚ) : ℤ :=
  if q < 0 then -⌊-q⌋ else ⌊q⌋

/-- `size = int(alloc / price) if price > 0 else 0` with
`alloc = capital_per * alloc_percent_per_ticker`, from `_execute_buy_signal`. -/
def execute_buy_size (capital_per alloc_frac price : ℚ) : ℤ :=
  if 0 < price then pyInt (capital_per * alloc_frac / price) else 0

/-- Embedding of `_execute_buy_signal`: `some size` when a buy intent of that
size is submitted, `none` when the signal is skipped (`size < min_size`). -/
def execute_buy_signal (capital_per alloc_frac price : ℚ) (min_size : ℤ) : Option ℤ :=
  if execute_buy_size capital_per alloc_frac price < min_size then none
  else some (execute_buy_size capital_per alloc_frac price)

/-- An intent submitted to the broker: `self.buy(data=d, size=size)` or
`self.close(data=d)`. -/
inductive Intent where
  | buy (size : ℤ)
  | close
deriving DecidableEq

/-- The trading branch of `next` for one ready instrument: on `pos.size == 0`
a positive crossover may open long; on an open position a negative crossover
closes it.  The returned state is the optimistic post-intent position. -/
def trade_logic (capital_per alloc_frac : ℚ) (min_size : ℤ) (pos : PosState)
    (xo price : ℚ) : PosState × Option Intent :=
  match pos with
  | .flat =>
    if 0 < xo then
      match execute_buy_signal capital_per alloc_frac price min_size with
      | some sz => (.long, some (.buy sz))
      | none => (.flat, none)
    else (.flat, none)
  | .long =>
    if xo < 0 then (.flat, some .close) else (.long, none)

/-- One observed step of the per-instrument state machine: position before,
crossover value, intent issued (if any), position after. -/
structure StepTrace where
  posBefore : PosState
  xo : ℚ
  intent : Option Intent
  posAfter : PosState
deriving DecidableEq

/-- Run the per-instrument state machine over a list of `(crossover, close)`
pairs, collecting the step trace. -/
def controller_run (capital_per alloc_frac : ℚ) (min_size : ℤ) :
    PosState → List (ℚ × ℚ) → List StepTrace
  | _, [] => []
  | pos, (xo, price) :: rest =>
    let r := trade_logic capital_per alloc_frac min_size pos xo price
    ⟨pos, xo, r.2, r.1⟩ :: controller_run capital_per alloc_frac min_size r.1 rest

/-! ### The instrument loop of `next` -/

/-- One iteration of the instrument loop in `next`: skip the instrument unless
`_data_ready`, otherwise run the trading branch with the cached allocation,
update that instrument's position, and append any issued intent. -/
def process_instrument (fast_ma slow_ma : ℕ) (alloc_frac : ℚ) (min_size : ℤ)
    (si : StratState × List (ℕ × Intent)) (i : ℕ) (c : DataCtx) :
    StratState × List (ℕ × Intent) :=
  if data_ready fast_ma slow_ma c then
    let r := trade_logic ((si.1.capital_per_ticker).getD 0) alloc_frac min_size
      (si.1.positions i) c.xo.toRat c.close.toRat
    ({ si.1 with positions := Function.update si.1.positions i r.1 },
      si.2 ++ (r.2.map (fun it => (i, it))).toList)
  else si

/-- Embedding of one full `next` call: refresh `d_with_len`, ensure the
capital cache, then fold the instrument loop over the available feeds
(given with their step contexts), collecting issued intents. -/
def next_step (fast_ma slow_ma totalDatas : ℕ) (alloc_frac : ℚ) (min_size : ℤ)
    (s : StratState) (avail : Finset ℕ) (cash : ℚ)
    (instrs : List (ℕ × DataCtx)) : StratState × List (ℕ × Intent) :=
  instrs.foldl
    (fun si ic => process_instrument fast_ma slow_ma alloc_frac min_size si ic.1 ic.2)
    (capital_step totalDatas s avail cash, [])

/-! ### The Sortino analyzer (`utils/sortino_analyzer.py`) -/

/-- The `sortino` entry of the analyzer's result dict: `None`, a float, or
`float('inf')`. -/
inductive SortinoVal where
  | undef
  | val (x : ℝ)
  | inf

/-- The analyzer's result dict
`{'sortino', 'annual_return', 'downside_deviation', 'n_periods'}`. -/
structure SortinoResult where
  sortino : SortinoVal
  annual_return : Option ℝ
  downside_deviation : Option ℝ
  n_periods : ℕ

/-- The analyzer's accumulation state: the list `self.equity` of per-period
returns and `self.prev_val`. -/
structure AnalyzerState where
  equity : List ℝ
  prev_val : Option ℝ

/-- Embedding of `SortinoRatio.next`: the first portfolio value only seeds
`prev_val`; every later one appends the simple return `cur/prev - 1`. -/
noncomputable def sortino_next (s : AnalyzerState) (cur : ℝ) : AnalyzerState :=
  match s.prev_val with
  | none => ⟨s.equity, some cur⟩
  | some p => ⟨s.equity ++ [cur / p - 1], some cur⟩

/-- Feed a whole sequence of portfolio-value samples to the analyzer. -/
noncomputable def sortino_run (vals : List ℝ) : AnalyzerState :=
  vals.foldl sortino_next ⟨[], none⟩

/-- `annual_return` from `SortinoRatio.stop`: `-1` when the compound growth
is non-positive, else `G ** (periods_per_year / n) - 1`. -/
noncomputable def annual_return_of (ppy : ℕ) (returns : List ℝ) : ℝ :=
  if (returns.map (fun r => 1 + r)).prod ≤ 0 then -1
  else (returns.map (fun r => 1 + r)).prod ^ ((ppy : ℝ) / (returns.length : ℝ)) - 1

/-- `mar_period = (1.0 + mar) ** (1.0 / periods_per_year) - 1.0`. -/
noncomputable def mar_period_of (mar : ℝ) (ppy : ℕ) : ℝ :=
  (1 + mar) ^ ((1 : ℝ) / (ppy : ℝ)) - 1

/-- `mean_sq = np.mean(np.minimum(0, returns - mar_period) ** 2)`: the mean of
the squared downside deviations over all periods. -/
noncomputable def downside_variance (mar : ℝ) (ppy : ℕ) (returns : List ℝ) : ℝ :=
  ((returns.map (fun r => (min 0 (r - mar_period_of mar ppy)) ^ 2)).sum) /
    (returns.length : ℝ)

/-- `downside_dev = math.sqrt(mean_sq) * math.sqrt(periods_per_year)`. -/
noncomputable def downside_dev_of (mar : ℝ) (ppy : ℕ) (returns : List ℝ) : ℝ :=
  Real.sqrt (downside_variance mar ppy returns) * Real.sqrt (ppy : ℝ)

/-- Embedding of `SortinoRatio.stop` applied to the accumulated return list:
empty input keeps the all-`None` result; otherwise the three metrics are
filled in, with the degenerate zero-downside-deviation branch giving
`inf` on positive excess return and `None` otherwise. -/
noncomputable def sortino_stop (ppy : ℕ) (riskfreerate mar : ℝ)
    (equity : List ℝ) : SortinoResult :=
  match equity with
  | [] => ⟨.undef, none, none, 0⟩
  | e =>
    let ar := annual_return_of ppy e
    let dd := downside_dev_of mar ppy e
    ⟨if 0 < dd then .val ((ar - riskfreerate) / dd)
      else if 0 < ar - riskfreerate then .inf else .undef,
     some ar, some dd, e.length⟩

/-! ### Helper lemmas -/

/-- The step context carries a positive numeric close and numeric values for
all three indicator heads. -/
def ValidCtx (c : DataCtx) : Prop :=
  (∃ p : ℚ, c.close = PyVal.num p ∧ 0 < p) ∧
  (∃ q : ℚ, c.fast = PyVal.num q) ∧
  (∃ q : ℚ, c.slow = PyVal.num q) ∧
  (∃ q : ℚ, c.xo = PyVal.num q)

lemma isNum_iff (v : PyVal) : v.isNum = true ↔ ∃ q : ℚ, v = PyVal.num q := by
  cases v <;> simp [PyVal.isNum]

lemma data_ready_iff (fast_ma slow_ma : ℕ) (c : DataCtx) :
    data_ready fast_ma slow_ma c = true ↔
      1 ≤ c.histLen ∧ min_period fast_ma slow_ma ≤ c.histLen ∧ ValidCtx c := by
  rcases c with ⟨len, cl, f, s, x⟩
  unfold data_ready ValidCtx
  dsimp only
  split_ifs with h1 h2
  · simp only [Bool.false_eq_true, false_iff]
    rintro ⟨hlen, -, -⟩
    omega
  · simp only [Bool.false_eq_true, false_iff]
    rintro ⟨-, hmp, -⟩
    omega
  · cases cl with
    | none =>
      dsimp only
      simp only [Bool.false_eq_true, false_iff]
      rintro ⟨-, -, ⟨p, hp, -⟩, -⟩
      exact PyVal.noConfusion hp
    | nan =>
      dsimp only
      simp only [Bool.false_eq_true, false_iff]
      rintro ⟨-, -, ⟨p, hp, -⟩, -⟩
      exact PyVal.noConfusion hp
    | num p =>
      dsimp only
      split_ifs with h3
      · simp only [Bool.false_eq_true, false_iff]
        rintro ⟨-, -, ⟨p', hp', hpos⟩, -⟩
        cases hp'
        exact absurd hpos (not_lt.mpr h3)
      · rw [Bool.and_eq_true, Bool.and_eq_true, isNum_iff, isNum_iff, isNum_iff]
        constructor
        · rintro ⟨⟨hf, hs⟩, hx⟩
          exact ⟨by omega, by omega, ⟨p, rfl, lt_of_not_le h3⟩, hf, hs, hx⟩
        · rintro ⟨-, -, -, hf, hs, hx⟩
          exact ⟨⟨hf, hs⟩, hx⟩

/-! ### C8: the readiness predicate -/

/-- C8: for every instrument step context (given a sensible configuration,
`1 ≤ max fast_ma slow_ma`, as in the strategy whose periods are 20 and 50),
`_data_ready` returns true iff the history length reaches
`max(fast_period, slow_period)`, the latest close is a positive number
(not `None`, not non-positive, not `nan`), and the fast SMA, slow SMA and
crossover values are all numeric (not undefined, not `nan`). -/
theorem C8_data_ready_characterization (fast_ma slow_ma : ℕ) (c : DataCtx)
    (h : 1 ≤ max fast_ma slow_ma) :
    data_ready fast_ma slow_ma c = true ↔
      (max fast_ma slow_ma ≤ c.histLen ∧ ValidCtx c) := by
  rw [data_ready_iff]
  unfold min_period
  constructor
  · rintro ⟨-, hmp, hv⟩
    exact ⟨hmp, hv⟩
  · rintro ⟨hmp, hv⟩
    exact ⟨le_trans h hmp, hmp, hv⟩

/-- Witness for C8 at a concrete context: 60 bars, close 5, numeric
indicator values, with the strategy's periods 20 and 50. -/
theorem C8_data_ready_witness :
    1 ≤ max 20 50 ∧
    data_ready 20 50 ⟨60, PyVal.num 5, PyVal.num 1, PyVal.num 2, PyVal.num 0⟩ = true :=
  ⟨by decide,
   (C8_data_ready_characterization 20 50 _ (by decide)).mpr
     ⟨by decide, ⟨5, rfl, by norm_num⟩, ⟨1, rfl⟩, ⟨2, rfl⟩, ⟨0, rfl⟩⟩⟩

/-! ### C4: readiness monotonicity -/

/-- A two-step history for one instrument: history length strictly increases,
but the second step delivers a `nan` close. -/
def c4_steps : List DataCtx :=
  [⟨50, PyVal.num 10, PyVal.num 1, PyVal.num 2, PyVal.num 0⟩,
   ⟨51, PyVal.nan, PyVal.num 1, PyVal.num 2, PyVal.num 0⟩]

/-- C4, counterexample: a fixed instrument whose history length is strictly
increasing is ready at step 0 and not ready at the later step 1, because
`_data_ready` re-checks the latest close every step and the second bar's
close is `nan`.  So readiness is not monotone from history growth alone. -/
theorem C4_ready_monotone_counterexample :
    List.Chain' (fun a b => a.histLen < b.histLen) c4_steps ∧
    c4_steps.map (data_ready 20 50) = [true, false] := by
  constructor
  · simp only [c4_steps, List.chain'_cons, List.chain'_singleton, and_true]
    omega
  · decide

/-- C4, amended: monotone readiness holds for a fixed instrument whose history
length strictly increases provided every step also carries a valid (positive,
numeric) close and numeric indicator values — once `_data_ready` is true at
step `k`, it is true at every step `j ≥ k`. -/
theorem C4_ready_monotone_amended (fast_ma slow_ma : ℕ) (seq : ℕ → DataCtx)
    (hlen : ∀ n, (seq n).histLen < (seq (n + 1)).histLen)
    (hvalid : ∀ n, ValidCtx (seq n))
    (k j : ℕ) (hk : data_ready fast_ma slow_ma (seq k) = true) (hkj : k ≤ j) :
    data_ready fast_ma slow_ma (seq j) = true := by
  have hmono : (seq k).histLen ≤ (seq j).histLen :=
    (strictMono_nat_of_lt_succ hlen).monotone hkj
  rw [data_ready_iff] at hk ⊢
  obtain ⟨h1, h2, -⟩ := hk
  exact ⟨le_trans h1 hmono, le_trans h2 hmono, hvalid j⟩

/-- A healthy instrument history: growing length, constant valid prices. -/
def c4_good : ℕ → DataCtx :=
  fun n => ⟨50 + n, PyVal.num 10, PyVal.num 1, PyVal.num 2, PyVal.num 0⟩

/-- Witness for the amended C4: the healthy history is ready at step 0 and,
by the theorem, still ready at step 3. -/
theorem C4_ready_monotone_witness :
    data_ready 20 50 (c4_good 0) = true ∧ data_ready 20 50 (c4_good 3) = true :=
  ⟨by decide,
   C4_ready_monotone_amended 20 50 c4_good
     (fun n => by simp only [c4_good]; omega)
     (fun n => ⟨⟨10, rfl, by norm_num⟩, ⟨1, rfl⟩, ⟨2, rfl⟩, ⟨0, rfl⟩⟩)
     0 3 (by decide) (by omega)⟩

/-! ### C1: the capital divisor -/

/-- C1, counterexample: with 7 data feeds and no instrument yet delivering
bars (`tradeableCount = 0`), the code divides the 700 units of cash by 7
(the total number of feeds), not by `max(1, 0) = 1` as the claim states. -/
theorem C1_alloc_divisor_counterexample :
    capital_per_calc 700 0 7 = 100 ∧
    (700 : ℚ) / ((max 1 0 : ℕ) : ℚ) = 700 ∧
    (100 : ℚ) ≠ 700 := by
  norm_num [capital_per_calc, active_n]

/-- C1, amended: whenever the cache is invalid, `_ensure_capital_per_ticker`
stores `freeCash / max(1, tradeableCount)` if the tradeable set is non-empty;
when the tradeable set is empty the divisor is `max(1, totalDatas)` — the
total number of data feeds — rather than 1. -/
theorem C1_alloc_divisor_amended (cash : ℚ) (s : StratState) (totalDatas : ℕ)
    (h : cache_valid totalDatas s = false) :
    (ensure_capital_per_ticker totalDatas cash s).capital_per_ticker
        = some (capital_per_calc cash s.d_with_len.card totalDatas) ∧
    (0 < s.d_with_len.card →
      capital_per_calc cash s.d_with_len.card totalDatas
        = cash / ((max 1 s.d_with_len.card : ℕ) : ℚ)) ∧
    (s.d_with_len.card = 0 →
      capital_per_calc cash s.d_with_len.card totalDatas
        = cash / ((max 1 totalDatas : ℕ) : ℚ)) := by
  refine ⟨?_, ?_, ?_⟩
  · unfold ensure_capital_per_ticker
    rw [h]
    simp
  · intro hpos
    unfold capital_per_calc active_n
    rw [if_pos (Nat.pos_iff_ne_zero.mp hpos)]
  · intro h0
    unfold capital_per_calc active_n
    rw [h0, if_neg (by simp)]

/-- Witness for the amended C1: from the freshly initialized strategy state
(empty tradeable set) with 7 feeds and 700 units of cash. -/
theorem C1_alloc_divisor_witness :
    cache_valid 7 StratState.init = false ∧
    (ensure_capital_per_ticker 7 700 StratState.init).capital_per_ticker
        = some (capital_per_calc 700 StratState.init.d_with_len.card 7) ∧
    capital_per_calc 700 StratState.init.d_with_len.card 7
        = 700 / ((max 1 7 : ℕ) : ℚ) :=
  ⟨by decide,
   (C1_alloc_divisor_amended 700 StratState.init 7 (by decide)).1,
   (C1_alloc_divisor_amended 700 StratState.init 7 (by decide)).2.2 (by decide)⟩

/-! ### C2: cache recomputation -/

/-- C2, counterexample: with 3 feeds, after a step observing available set
`{0, 1}` (cached count 2), a next step observing `{0, 2}` — the same count 2 —
still recomputes the allocation, because `next` invalidates the cache whenever
the available *set* changes, not only when its *count* does.  The claim's
"recomputed iff the observed count differs from the cached one" fails. -/
theorem C2_cache_iff_counterexample :
    ({0, 2} : Finset ℕ).card = 2 ∧
    (capital_step 3 StratState.init {0, 1} 100).capital_calc_for_len = some 2 ∧
    step_recomputes 3 (capital_step 3 StratState.init {0, 1} 100) {0, 2} = true := by
  refine ⟨by decide, by decide, by decide⟩

/-- C2, amended: on a `next` step the allocation is recomputed iff the
observed available set differs from the stored one, or the cache is empty, or
the cached count differs from the current active count; and at every
recomputation the stored allocation times the active count recovers exactly
the free cash used. -/
theorem C2_cache_amended (totalDatas : ℕ) (s : StratState) (avail : Finset ℕ) (cash : ℚ) :
    (step_recomputes totalDatas s avail = true ↔
      (avail ≠ s.d_with_len ∨ s.capital_per_ticker = none ∨
        s.capital_calc_for_len ≠ some (active_n avail.card totalDatas))) ∧
    (step_recomputes totalDatas s avail = true →
      ∃ a : ℚ, (capital_step totalDatas s avail cash).capital_per_ticker = some a ∧
        a * ((active_n avail.card totalDatas : ℕ) : ℚ) = cash) := by
  have hupd : (update_available s avail).d_with_len = avail := by
    unfold update_available
    split_ifs with h
    · rfl
    · push_neg at h
      rw [h]
  constructor
  · unfold step_recomputes cache_valid
    rw [hupd]
    unfold update_available
    split_ifs with h
    · simp [h]
    · push_neg at h
      cases hc : s.capital_per_ticker <;> simp [hc, h]
  · intro hrec
    have hcv : cache_valid totalDatas (update_available s avail) = false := by
      unfold step_recomputes at hrec
      simpa using hrec
    unfold capital_step ensure_capital_per_ticker
    rw [hcv]
    simp only [Bool.false_eq_true, if_false, hupd]
    refine ⟨capital_per_calc cash avail.card totalDatas, rfl, ?_⟩
    unfold capital_per_calc
    rw [div_mul_cancel₀]
    have h1 : 1 ≤ active_n avail.card totalDatas := le_max_left 1 _
    exact_mod_cast Nat.pos_iff_ne_zero.mp h1

/-- Witness for the amended C2: the first step from the initialized state
(empty cache) with 3 feeds, available set `{0, 1}` and 100 units of cash
recomputes, and the stored allocation times the active count is the cash. -/
theorem C2_cache_witness :
    step_recomputes 3 StratState.init {0, 1} = true ∧
    (∃ a : ℚ, (capital_step 3 StratState.init {0, 1} 100).capital_per_ticker = some a ∧
      a * ((active_n ({0, 1} : Finset ℕ).card 3 : ℕ) : ℚ) = 100) :=
  ⟨by decide, (C2_cache_amended 3 StratState.init {0, 1} 100).2 (by decide)⟩

/-! ### C5: buy sizing -/

/-- C5: while flat on a positive crossover, the submitted size is
`floor(allocation × fraction / close)` (when the budget is non-negative and the
price positive) and the signal is skipped when that size is below `min_size`;
concretely, with one tradeable instrument, 100000 free cash, fraction 0.9 and
close 50 the machine goes `FLAT → LONG` with a buy of 1800 units, while with
10 free cash, fraction 0.9 and close 1000 the size 0 is below the minimum and
nothing is issued. -/
theorem C5_buy_sizing (capital_per alloc_frac price : ℚ) (min_size : ℤ)
    (hp : 0 < price) (ha : 0 ≤ capital_per * alloc_frac) :
    (execute_buy_signal capital_per alloc_frac price min_size =
      if ⌊capital_per * alloc_frac / price⌋ < min_size then none
      else some ⌊capital_per * alloc_frac / price⌋) ∧
    trade_logic (capital_per_calc 100000 1 1) (9 / 10) 1 PosState.flat 1 50
      = (PosState.long, some (Intent.buy 1800)) ∧
    trade_logic (capital_per_calc 10 1 1) (9 / 10) 1 PosState.flat 1 1000
      = (PosState.flat, none) := by
  refine ⟨?_, ?_, ?_⟩
  · have hq : ¬ (capital_per * alloc_frac / price < 0) :=
      not_lt.mpr (div_nonneg ha hp.le)
    have hsz : execute_buy_size capital_per alloc_frac price
        = ⌊capital_per * alloc_frac / price⌋ := by
      unfold execute_buy_size pyInt
      rw [if_pos hp, if_neg hq]
    unfold execute_buy_signal
    rw [hsz]
  · norm_num [trade_logic, execute_buy_signal, execute_buy_size, pyInt,
      capital_per_calc, active_n]
  · norm_num [trade_logic, execute_buy_signal, execute_buy_size, pyInt,
      capital_per_calc, active_n]

/-- Witness for C5: the sizing formula evaluated at cash-per-ticker 100000,
fraction 0.9, close 50, minimum size 1. -/
theorem C5_buy_sizing_witness :
    (0 : ℚ) < 50 ∧ (0 : ℚ) ≤ 100000 * (9 / 10) ∧
    execute_buy_signal 100000 (9 / 10) 50 1 =
      (if ⌊(100000 : ℚ) * (9 / 10) / 50⌋ < (1 : ℤ) then none
       else some ⌊(100000 : ℚ) * (9 / 10) / 50⌋) :=
  ⟨by norm_num, by norm_num,
   (C5_buy_sizing 100000 (9 / 10) 50 1 (by norm_num) (by norm_num)).1⟩

/-! ### C6: state-machine safety -/

lemma execute_buy_signal_eq_some (capital_per alloc_frac price : ℚ)
    (min_size sz : ℤ) (h : execute_buy_signal capital_per alloc_frac price min_size = some sz) :
    sz = execute_buy_size capital_per alloc_frac price := by
  unfold execute_buy_signal at h
  split_ifs at h
  exact (Option.some_inj.mp h).symm

lemma trade_logic_long_no_buy (capital_per alloc_frac : ℚ) (min_size : ℤ)
    (xo price : ℚ) (sz : ℤ) :
    (trade_logic capital_per alloc_frac min_size PosState.long xo price).2
      ≠ some (Intent.buy sz) := by
  simp only [trade_logic]
  split_ifs <;> simp

lemma trade_logic_flat_no_close (capital_per alloc_frac : ℚ) (min_size : ℤ)
    (xo price : ℚ) :
    (trade_logic capital_per alloc_frac min_size PosState.flat xo price).2
      ≠ some Intent.close := by
  simp only [trade_logic]
  split_ifs with h
  · cases hb : execute_buy_signal capital_per alloc_frac price min_size <;> simp [hb]
  · simp

lemma trade_logic_frame (capital_per alloc_frac : ℚ) (min_size : ℤ)
    (pos : PosState) (xo price : ℚ)
    (h : (trade_logic capital_per alloc_frac min_size pos xo price).1 ≠ pos) :
    (pos = PosState.flat ∧ 0 < xo) ∨ (pos = PosState.long ∧ xo < 0) := by
  cases pos
  · left
    refine ⟨rfl, ?_⟩
    by_contra hxo
    apply h
    simp only [trade_logic]
    rw [if_neg hxo]
  · right
    refine ⟨rfl, ?_⟩
    by_contra hxo
    apply h
    simp only [trade_logic]
    rw [if_neg hxo]

lemma trade_logic_buy_from_flat (capital_per alloc_frac : ℚ) (min_size : ℤ)
    (pos : PosState) (xo price : ℚ) (sz : ℤ)
    (h : (trade_logic capital_per alloc_frac min_size pos xo price).2
      = some (Intent.buy sz)) :
    sz = execute_buy_size capital_per alloc_frac price := by
  cases pos
  · simp only [trade_logic] at h
    split_ifs at h
    cases hb : execute_buy_signal capital_per alloc_frac price min_size with
    | none => simp [hb] at h
    | some a =>
      obtain rfl : a = sz := by simpa [hb] using h
      exact execute_buy_signal_eq_some _ _ _ _ _ hb
  · exact absurd h (trade_logic_long_no_buy _ _ _ _ _ _)

/-- C6: over every input signal sequence, the per-instrument state machine
never issues a buy intent from `LONG` (no pyramiding), never issues a close
intent from `FLAT` (no shorting), and changes state only on a positive
crossover while flat or a negative crossover while long. -/
theorem C6_state_machine_safety (capital_per alloc_frac : ℚ) (min_size : ℤ)
    (pos₀ : PosState) (steps : List (ℚ × ℚ)) :
    ∀ t ∈ controller_run capital_per alloc_frac min_size pos₀ steps,
      (t.posBefore = PosState.long → ∀ sz, t.intent ≠ some (Intent.buy sz)) ∧
      (t.posBefore = PosState.flat → t.intent ≠ some Intent.close) ∧
      (t.posAfter ≠ t.posBefore →
        (t.posBefore = PosState.flat ∧ 0 < t.xo) ∨
        (t.posBefore = PosState.long ∧ t.xo < 0)) := by
  induction steps generalizing pos₀ with
  | nil =>
    intro t ht
    exact absurd ht (List.not_mem_nil t)
  | cons sp rest ih =>
    obtain ⟨xo, price⟩ := sp
    intro t ht
    rw [controller_run] at ht
    rcases List.mem_cons.mp ht with h | h
    · subst h
      refine ⟨?_, ?_, ?_⟩ <;> dsimp only
      · intro hb sz
        subst hb
        exact trade_logic_long_no_buy _ _ _ _ _ _
      · intro hb
        subst hb
        exact trade_logic_flat_no_close _ _ _ _ _
      · intro hne
        exact trade_logic_frame _ _ _ _ _ _ hne
    · exact ih _ t h

/-- Witness for C6: from `LONG` on a positive crossover, the recorded step
issues no intent; in particular no buy intent is issued while long. -/
theorem C6_state_machine_witness :
    ((⟨PosState.long, 1, none, PosState.long⟩ : StepTrace) ∈
      controller_run 100000 (9 / 10) 1 PosState.long [(1, 50)]) ∧
    (∀ sz, (⟨PosState.long, 1, none, PosState.long⟩ : StepTrace).intent
      ≠ some (Intent.buy sz)) :=
  ⟨by decide,
   (C6_state_machine_safety 100000 (9 / 10) 1 PosState.long [(1, 50)] _ (by decide)).1 rfl⟩

/-! ### C9: the allocation is frame-invariant across the instrument loop -/

lemma process_instrument_capital (fast_ma slow_ma : ℕ) (af : ℚ) (ms : ℤ)
    (si : StratState × List (ℕ × Intent)) (i : ℕ) (c : DataCtx) :
    (process_instrument fast_ma slow_ma af ms si i c).1.capital_per_ticker
        = si.1.capital_per_ticker ∧
    (process_instrument fast_ma slow_ma af ms si i c).1.capital_calc_for_len
        = si.1.capital_calc_for_len := by
  unfold process_instrument
  split_ifs <;> simp

lemma process_instrument_out (fast_ma slow_ma : ℕ) (af : ℚ) (ms : ℤ)
    (si : StratState × List (ℕ × Intent)) (i : ℕ) (c : DataCtx) :
    ∀ p ∈ (process_instrument fast_ma slow_ma af ms si i c).2,
      p ∈ si.2 ∨
      (p.1 = i ∧ ∀ sz, p.2 = Intent.buy sz →
        sz = execute_buy_size (si.1.capital_per_ticker.getD 0) af c.close.toRat) := by
  unfold process_instrument
  split_ifs with h
  · intro p hp
    dsimp only at hp
    rw [List.mem_append] at hp
    rcases hp with hp | hp
    · exact Or.inl hp
    · right
      cases hX : (trade_logic (si.1.capital_per_ticker.getD 0) af ms
          (si.1.positions i) c.xo.toRat c.close.toRat).2 with
      | none => simp [hX] at hp
      | some it =>
        rw [hX] at hp
        simp at hp
        subst hp
        refine ⟨rfl, fun sz hsz => ?_⟩
        exact trade_logic_buy_from_flat _ _ _ _ _ _ _
          (by rw [hX]; exact congrArg some hsz)
  · intro p hp
    exact Or.inl hp

lemma next_loop_invariant (fast_ma slow_ma : ℕ) (af : ℚ) (ms : ℤ) :
    ∀ (instrs : List (ℕ × DataCtx)) (s : StratState) (acc : List (ℕ × Intent)),
      ((instrs.foldl
          (fun si ic => process_instrument fast_ma slow_ma af ms si ic.1 ic.2)
          (s, acc)).1.capital_per_ticker = s.capital_per_ticker) ∧
      ((instrs.foldl
          (fun si ic => process_instrument fast_ma slow_ma af ms si ic.1 ic.2)
          (s, acc)).1.capital_calc_for_len = s.capital_calc_for_len) ∧
      (∀ p ∈ (instrs.foldl
          (fun si ic => process_instrument fast_ma slow_ma af ms si ic.1 ic.2)
          (s, acc)).2,
        p ∈ acc ∨ ∃ c, (p.1, c) ∈ instrs ∧ ∀ sz, p.2 = Intent.buy sz →
          sz = execute_buy_size (s.capital_per_ticker.getD 0) af c.close.toRat) := by
  intro instrs
  induction instrs with
  | nil =>
    intro s acc
    exact ⟨rfl, rfl, fun p hp => Or.inl hp⟩
  | cons ic rest ih =>
    intro s acc
    rw [List.foldl_cons]
    have ih' := ih (process_instrument fast_ma slow_ma af ms (s, acc) ic.1 ic.2).1
      (process_instrument fast_ma slow_ma af ms (s, acc) ic.1 ic.2).2
    rw [Prod.mk.eta] at ih'
    have hcap := process_instrument_capital fast_ma slow_ma af ms (s, acc) ic.1 ic.2
    refine ⟨?_, ?_, ?_⟩
    · rw [ih'.1, hcap.1]
    · rw [ih'.2.1, hcap.2]
    · intro p hp
      rcases ih'.2.2 p hp with hin | ⟨c, hc, hbuy⟩
      · rcases process_instrument_out fast_ma slow_ma af ms (s, acc) ic.1 ic.2 p hin with
          hin' | ⟨hfst, hbuy⟩
        · exact Or.inl hin'
        · right
          refine ⟨ic.2, ?_, hbuy⟩
          rw [hfst, Prod.mk.eta]
          exact List.mem_cons_self _ _
      · right
        refine ⟨c, List.mem_cons_of_mem _ hc, fun sz hsz => ?_⟩
        have hb := hbuy sz hsz
        rwa [hcap.1] at hb

/-- C9: within one global step, the allocation cache computed before the
instrument loop (`capital_step`) is unchanged by the whole loop — processing
one instrument's buy or close intent never touches it — and every buy intent
issued in the loop is sized from that same pre-loop allocation value. -/
theorem C9_allocation_frame (fast_ma slow_ma totalDatas : ℕ) (af : ℚ) (ms : ℤ)
    (s : StratState) (avail : Finset ℕ) (cash : ℚ) (instrs : List (ℕ × DataCtx)) :
    ((next_step fast_ma slow_ma totalDatas af ms s avail cash instrs).1.capital_per_ticker
        = (capital_step totalDatas s avail cash).capital_per_ticker) ∧
    ((next_step fast_ma slow_ma totalDatas af ms s avail cash instrs).1.capital_calc_for_len
        = (capital_step totalDatas s avail cash).capital_calc_for_len) ∧
    (∀ p ∈ (next_step fast_ma slow_ma totalDatas af ms s avail cash instrs).2,
      ∃ c, (p.1, c) ∈ instrs ∧ ∀ sz, p.2 = Intent.buy sz →
        sz = execute_buy_size
          ((capital_step totalDatas s avail cash).capital_per_ticker.getD 0)
          af c.close.toRat) := by
  have h := next_loop_invariant fast_ma slow_ma af ms instrs
    (capital_step totalDatas s avail cash) []
  unfold next_step
  exact ⟨h.1, h.2.1, fun p hp => (h.2.2 p hp).resolve_left (List.not_mem_nil p)⟩

/-- A one-instrument scenario for the frame theorem: one feed, one bar of
history, close 50, positive crossover. -/
def c9_ctx : DataCtx := ⟨1, PyVal.num 50, PyVal.num 0, PyVal.num 0, PyVal.num 1⟩

/-- The instrument list handed to the loop in the C9 scenario. -/
def c9_instr : List (ℕ × DataCtx) := [(0, c9_ctx)]

/-- Witness for C9: in the concrete one-instrument run the loop emits the buy
intent of 1800 units, and the theorem locates its size in the pre-loop
allocation. -/
theorem C9_allocation_frame_witness :
    ((0, Intent.buy 1800) ∈
      (next_step 1 1 1 (9 / 10) 1 StratState.init {0} 100000 c9_instr).2) ∧
    ∃ c, (((0, Intent.buy 1800) : ℕ × Intent).1, c) ∈ c9_instr ∧
      ∀ sz, ((0, Intent.buy 1800) : ℕ × Intent).2 = Intent.buy sz →
        sz = execute_buy_size
          ((capital_step 1 StratState.init {0} 100000).capital_per_ticker.getD 0)
          (9 / 10) c.close.toRat := by
  have hm : (0, Intent.buy 1800) ∈
      (next_step 1 1 1 (9 / 10) 1 StratState.init {0} 100000 c9_instr).2 := by
    norm_num [next_step, capital_step, update_available, ensure_capital_per_ticker,
      cache_valid, capital_per_calc, active_n, process_instrument, data_ready,
      min_period, trade_logic, execute_buy_signal, execute_buy_size, pyInt,
      PyVal.toRat, PyVal.isNum, StratState.init, c9_instr, c9_ctx]
  exact ⟨hm,
    (C9_allocation_frame 1 1 1 (9 / 10) 1 StratState.init {0} 100000 c9_instr).2.2 _ hm⟩

/-! ### Analyzer helper lemmas -/

lemma sortino_stop_ne_nil (ppy : ℕ) (rf mar : ℝ) (e : List ℝ) (he : e ≠ []) :
    sortino_stop ppy rf mar e =
      ⟨if 0 < downside_dev_of mar ppy e then
          SortinoVal.val ((annual_return_of ppy e - rf) / downside_dev_of mar ppy e)
        else if 0 < annual_return_of ppy e - rf then SortinoVal.inf else SortinoVal.undef,
       some (annual_return_of ppy e), some (downside_dev_of mar ppy e), e.length⟩ := by
  cases e with
  | nil => exact absurd rfl he
  | cons a l => rfl

lemma downside_variance_nonneg (mar : ℝ) (ppy : ℕ) (returns : List ℝ) :
    0 ≤ downside_variance mar ppy returns := by
  unfold downside_variance
  refine div_nonneg (List.sum_nonneg ?_) (Nat.cast_nonneg _)
  intro x hx
  obtain ⟨r, -, rfl⟩ := List.mem_map.mp hx
  exact sq_nonneg _

lemma downside_dev_nonneg (mar : ℝ) (ppy : ℕ) (returns : List ℝ) :
    0 ≤ downside_dev_of mar ppy returns :=
  mul_nonneg (Real.sqrt_nonneg _) (Real.sqrt_nonneg _)

lemma annual_return_ge_neg_one (ppy : ℕ) (returns : List ℝ) :
    -1 ≤ annual_return_of ppy returns := by
  unfold annual_return_of
  split_ifs with h
  · exact le_refl _
  · push_neg at h
    have := Real.rpow_pos_of_pos h ((ppy : ℝ) / (returns.length : ℝ))
    linarith

lemma sortino_run_short (vals : List ℝ) (h : vals.length < 2) :
    (sortino_run vals).equity = [] := by
  match vals with
  | [] => rfl
  | [v] => rfl
  | a :: b :: rest => simp at h; omega

lemma sortino_run_equity_len_aux (vals : List ℝ) :
    ∀ (acc : List ℝ) (p : ℝ),
      ((vals.foldl sortino_next ⟨acc, some p⟩).equity).length = acc.length + vals.length := by
  induction vals with
  | nil => intro acc p; simp
  | cons v rest ih =>
    intro acc p
    rw [List.foldl_cons]
    show ((rest.foldl sortino_next ⟨acc ++ [v / p - 1], some v⟩).equity).length = _
    rw [ih]
    simp
    omega

lemma sortino_run_length (vals : List ℝ) (h : vals ≠ []) :
    (sortino_run vals).equity.length = vals.length - 1 := by
  cases vals with
  | nil => exact absurd rfl h
  | cons v rest =>
    show ((rest.foldl sortino_next (sortino_next ⟨[], none⟩ v)).equity).length = _
    rw [show sortino_next ⟨[], none⟩ v = ⟨[], some v⟩ from rfl]
    rw [sortino_run_equity_len_aux]
    simp

/-! ### C3: degenerate-input handling in the analyzer -/

/-- C3: the analyzer finalization is total and handles every degenerate input
with sentinels: fewer than 2 portfolio samples give the all-undefined result
with `n_periods = 0`; with a non-empty return list the reported
Sortino value is `(annual_return - riskfree) / downside_dev` when the downside
deviation is positive, `+∞` when it is zero with positive excess return,
undefined when it is zero without excess return, and a non-positive compound
growth pins the annualized return at `-1`. -/
theorem C3_sortino_degenerate (ppy : ℕ) (rf mar : ℝ) (vals equity : List ℝ) :
    (vals.length < 2 →
      (sortino_run vals).equity = [] ∧
      sortino_stop ppy rf mar (sortino_run vals).equity
        = ⟨SortinoVal.undef, none, none, 0⟩) ∧
    (equity ≠ [] →
      (0 < downside_dev_of mar ppy equity →
        (sortino_stop ppy rf mar equity).sortino
          = SortinoVal.val ((annual_return_of ppy equity - rf) /
              downside_dev_of mar ppy equity)) ∧
      (downside_dev_of mar ppy equity = 0 →
        (rf < annual_return_of ppy equity →
          (sortino_stop ppy rf mar equity).sortino = SortinoVal.inf) ∧
        (annual_return_of ppy equity ≤ rf →
          (sortino_stop ppy rf mar equity).sortino = SortinoVal.undef)) ∧
      ((equity.map (fun r => 1 + r)).prod ≤ 0 →
        (sortino_stop ppy rf mar equity).annual_return = some (-1))) := by
  constructor
  · intro h
    have he := sortino_run_short vals h
    rw [he]
    exact ⟨rfl, rfl⟩
  · intro he
    rw [sortino_stop_ne_nil ppy rf mar equity he]
    refine ⟨?_, ?_, ?_⟩
    · intro hdd
      simp only [if_pos hdd]
    · intro h0
      have hnlt : ¬ 0 < downside_dev_of mar ppy equity := by rw [h0]; exact lt_irrefl 0
      constructor
      · intro har
        simp only [if_neg hnlt, if_pos (sub_pos.mpr har)]
      · intro har
        simp only [if_neg hnlt, if_neg (not_lt.mpr (sub_nonpos.mpr har))]
    · intro hg
      simp only
      rw [show annual_return_of ppy equity = -1 from by unfold annual_return_of; rw [if_pos hg]]

/-- Downside deviation vanishes on the single 100% return with zero MAR. -/
lemma c3_dd_zero : downside_dev_of 0 252 [(1 : ℝ)] = 0 := by
  have hmp : mar_period_of 0 252 = 0 := by
    simp [mar_period_of, Real.one_rpow]
  simp [downside_dev_of, downside_variance, hmp, min_def]

/-- The annualized return on the single 100% return is positive. -/
lemma c3_ar_pos : 0 < annual_return_of 252 [(1 : ℝ)] := by
  unfold annual_return_of
  rw [if_neg (by norm_num)]
  simp only [List.map_cons, List.map_nil, List.prod_cons, List.prod_nil,
    List.length_cons, List.length_nil]
  norm_num

/-- Witness for C3: the empty sample sequence yields the all-undefined result,
and the single 100% return with zero MAR and zero risk-free rate yields the
`+∞` sentinel. -/
theorem C3_sortino_degenerate_witness :
    ((sortino_run ([] : List ℝ)).equity = [] ∧
      sortino_stop 252 0 0 (sortino_run ([] : List ℝ)).equity
        = ⟨SortinoVal.undef, none, none, 0⟩) ∧
    (sortino_stop 252 0 0 [(1 : ℝ)]).sortino = SortinoVal.inf :=
  ⟨(C3_sortino_degenerate 252 0 0 [] [(1 : ℝ)]).1 (by norm_num),
   (((C3_sortino_degenerate 252 0 0 [] [(1 : ℝ)]).2 (by simp)).2.1 c3_dd_zero).1 c3_ar_pos⟩

/-! ### C7: the downside-deviation formula -/

/-- C7: the reported annualized downside deviation is
`sqrt(downside_variance × periodsPerYear)` where the variance is the mean of
`min(0, r_i - mar_period)²` over all `n` periods, with
`mar_period = (1 + MAR)^(1/periodsPerYear) - 1`; on the reference input
`[0.01, -0.02, 0.015, -0.01]` with `MAR = 0` and 252 periods per year the
period threshold is 0 and only the two negative entries contribute to the
squared mean, whose denominator is still the full count 4. -/
theorem C7_downside_deviation (rf mar : ℝ) (ppy : ℕ) (equity : List ℝ)
    (he : equity ≠ []) :
    (sortino_stop ppy rf mar equity).downside_deviation
        = some (Real.sqrt (downside_variance mar ppy equity * (ppy : ℝ))) ∧
    mar_period_of 0 252 = 0 ∧
    downside_variance 0 252 [1 / 100, -2 / 100, 15 / 1000, -1 / 100]
        = ((2 / 100) ^ 2 + (1 / 100) ^ 2) / 4 := by
  have hmp : mar_period_of 0 252 = 0 := by
    simp [mar_period_of, Real.one_rpow]
  refine ⟨?_, hmp, ?_⟩
  · rw [sortino_stop_ne_nil ppy rf mar equity he]
    simp only
    rw [Real.sqrt_mul (downside_variance_nonneg mar ppy equity)]
    rfl
  · simp only [downside_variance, hmp, List.map_cons, List.map_nil,
      List.sum_cons, List.sum_nil, List.length_cons, List.length_nil]
    norm_num [min_def]

/-- Witness for C7 at the reference return list itself. -/
theorem C7_downside_deviation_witness :
    ([1 / 100, -2 / 100, 15 / 1000, -1 / 100] : List ℝ) ≠ [] ∧
    (sortino_stop 252 0 0 [1 / 100, -2 / 100, 15 / 1000, -1 / 100]).downside_deviation
      = some (Real.sqrt
          (downside_variance 0 252 [1 / 100, -2 / 100, 15 / 1000, -1 / 100] * (252 : ℝ))) :=
  ⟨by simp,
   (C7_downside_deviation 0 0 252 [1 / 100, -2 / 100, 15 / 1000, -1 / 100] (by simp)).1⟩

/-! ### C10: result invariants and the sample count -/

/-- C10: for at least two portfolio-value samples (a non-empty return list),
the finalized result reports `n_periods` equal to the number of samples minus
one (the first sample only seeds the baseline), an annualized return at least
`-1`, and a non-negative downside deviation. -/
theorem C10_result_invariants (ppy : ℕ) (rf mar : ℝ) (vals : List ℝ)
    (h : 2 ≤ vals.length) :
    (sortino_stop ppy rf mar (sortino_run vals).equity).n_periods = vals.length - 1 ∧
    (∃ a, (sortino_stop ppy rf mar (sortino_run vals).equity).annual_return = some a ∧
      -1 ≤ a) ∧
    (∃ d, (sortino_stop ppy rf mar (sortino_run vals).equity).downside_deviation = some d ∧
      0 ≤ d) := by
  have hvne : vals ≠ [] := by
    intro h0
    rw [h0] at h
    simp at h
  have hlen := sortino_run_length vals hvne
  have hne : (sortino_run vals).equity ≠ [] := by
    intro h0
    rw [h0] at hlen
    simp at hlen
    omega
  rw [sortino_stop_ne_nil ppy rf mar _ hne]
  exact ⟨hlen,
    ⟨_, rfl, annual_return_ge_neg_one _ _⟩,
    ⟨_, rfl, downside_dev_nonneg _ _ _⟩⟩

/-- Witness for C10 on the two-sample equity path 100 → 110. -/
theorem C10_result_invariants_witness :
    2 ≤ ([100, 110] : List ℝ).length ∧
    ((sortino_stop 252 0 0 (sortino_run ([100, 110] : List ℝ)).equity).n_periods
        = ([100, 110] : List ℝ).length - 1 ∧
      (∃ a, (sortino_stop 252 0 0 (sortino_run ([100, 110] : List ℝ)).equity).annual_return
          = some a ∧ -1 ≤ a) ∧
      (∃ d, (sortino_stop 252 0 0 (sortino_run ([100, 110] : List ℝ)).equity).downside_deviation
          = some d ∧ 0 ≤ d)) :=
  ⟨by norm_num, C10_result_invariants 252 0 0 [100, 110] (by norm_num)⟩

end BQT
